/-
  Verification of the deduplicated fetch/annotate engine and the resumable
  batch runner of the politics-bias-llm repository.

  The development shallowly embeds the two core modules:
  - `src/article_fetcher.py` (class `ArticleFetcher`): URL scraping with
    layered title/body extraction, key deduplication via `factorize`, and
    merge-back of per-unique-URL results onto the row multiset;
  - `src/llm_executor.py`: the resumable batch inference runner with
    schema validation of the model response and outcome classification.

  External collaborators (HTTP transport, the BeautifulSoup document tree,
  JSON parsing, the CSV layer) are modelled at their interface boundary:
  the document is a tree with find-by-tag / find-by-class / remove-subtree /
  get-text operations, a fetch result is a sum of timeout, transport error
  and a (status, document) response, and an inference response is either a
  parsed flat JSON object or unparsable text.  All definitions follow the
  Python source; theorems state the specified properties about them.
-/
import Mathlib

set_option maxHeartbeats 1000000

/-! ## The document-tree collaborator (BeautifulSoup boundary)

A parsed HTML document is a forest of nodes; an element node carries a tag
name, its class attribute list (`paragraph.get('class', [])` semantics) and
its children.  `bs4` queries used by the source are modelled below:
`find_all(tag)` (document-order, descendants included), `find(tag)` (first
match), `decompose` of every element carrying one of a set of classes, and
`.text` (concatenation of all descendant strings). -/

mutual
inductive Html where
  | text (s : String)
  | elem (tag : String) (classes : List String) (children : HtmlList)
inductive HtmlList where
  | nil
  | cons (h : Html) (t : HtmlList)
end

mutual
/-- `.text` of a node: concatenation of all descendant strings, in order. -/
def Html.allText : Html → String
  | .text s => s
  | .elem _ _ children => HtmlList.allText children
def HtmlList.allText : HtmlList → String
  | .nil => ""
  | .cons h t => Html.allText h ++ HtmlList.allText t
end

mutual
/-- `find_all(tag)` on a single node: the node itself when its tag matches,
followed by all matching descendants, in document (pre-)order. -/
def Html.findAllTag (t : String) : Html → List Html
  | .text _ => []
  | .elem tag cls children =>
    (if tag = t then [Html.elem tag cls children] else []) ++ HtmlList.findAllTag t children
/-- `find_all(tag)` over a forest, in document order. -/
def HtmlList.findAllTag (t : String) : HtmlList → List Html
  | .nil => []
  | .cons h tl => Html.findAllTag t h ++ HtmlList.findAllTag t tl
end

/-- `soup.find(tag)`: the first matching element in document order. -/
def HtmlList.findTag (t : String) (doc : HtmlList) : Option Html :=
  (doc.findAllTag t).head?

mutual
/-- Removal of every element that carries one of the classes in `ex`
(the `decompose` loop over `EXCLUSION_CLASSES`): a removed element
disappears with its whole subtree. -/
def Html.removeClasses (ex : List String) : Html → Option Html
  | .text s => some (.text s)
  | .elem tag cls children =>
    if cls.any (fun c => ex.contains c) then none
    else some (.elem tag cls (HtmlList.removeClasses ex children))
def HtmlList.removeClasses (ex : List String) : HtmlList → HtmlList
  | .nil => .nil
  | .cons h t =>
    match Html.removeClasses ex h with
    | none => HtmlList.removeClasses ex t
    | some h2 => .cons h2 (HtmlList.removeClasses ex t)
end

/-- Python `str.strip()`: drop leading and trailing whitespace. -/
def pyStrip (s : String) : String :=
  ⟨((s.data.dropWhile Char.isWhitespace).reverse.dropWhile Char.isWhitespace).reverse⟩

/-- The class list of a node (`paragraph.get('class', [])`). -/
def Html.classesOf : Html → List String
  | .text _ => []
  | .elem _ cls _ => cls

/-- The children forest of a node (descendant scope of `body.find_all`). -/
def Html.childrenOf : Html → HtmlList
  | .text _ => .nil
  | .elem _ _ children => children

/-! ## `ArticleFetcher._get_article_details` (src/article_fetcher.py:73-135)

The outcome of `requests.get(url, timeout=10)` is modelled at the boundary:
a timeout, any other transport-level exception, or a response carrying a
status code and the document tree that `BeautifulSoup(response.text,
"html.parser")` produces (the lenient parser is total; character-encoding
detection only influences decoding and is absorbed into the tree). -/

inductive FetchOutcome where
  | timeout
  | transportError (msg : String)
  | response (status : Nat) (doc : HtmlList)

/-- `EXCLUSION_CLASSES` of `_get_article_details`. -/
def EXCLUSION_CLASSES : List String := ["article-meta", "article-footer"]

/-- The translation of `ArticleFetcher._get_article_details`.  The pair of
`None, None` returns on timeout, transport error and non-200 status becomes
`(none, none)`; otherwise the title is the first `h1` text (stripped) or the
`"No Title Found"` sentinel, and the body is built from the paragraphs of
the `article` element when one exists, from the first 10 paragraphs of the
document otherwise, with `footnote`-classed paragraphs excluded, falling
back to the `"No Content Found"` sentinel when the collected list is empty. -/
def getArticleDetails : FetchOutcome → Option String × Option String
  | .timeout => (none, none)
  | .transportError _ => (none, none)
  | .response status doc =>
    if status ≠ 200 then (none, none)
    else
      let soup := HtmlList.removeClasses EXCLUSION_CLASSES doc
      let title :=
        match soup.findTag "h1" with
        | some t => pyStrip t.allText
        | none => "No Title Found"
      let body := soup.findTag "article"
      let content :=
        match body with
        | some b =>
          ((b.childrenOf.findAllTag "p").filter
              (fun p => ¬ p.classesOf.contains "footnote")).map
            (fun p => pyStrip p.allText)
        | none =>
          (((soup.findAllTag "p").take 10).filter
              (fun p => ¬ p.classesOf.contains "footnote")).map
            (fun p => pyStrip p.allText)
      let content2 := if content.isEmpty then ["No Content Found"] else content
      (some title, some (String.intercalate " " content2))

example :
    getArticleDetails (.response 200 .nil) =
      (some "No Title Found", some "No Content Found") := by decide

example : getArticleDetails (.response 404 .nil) = (none, none) := by decide

example :
    getArticleDetails
      (.response 200
        (.cons (.elem "h1" [] (.cons (.text " T ") .nil))
          (.cons
            (.elem "article" []
              (.cons (.elem "p" [] (.cons (.text "a") .nil))
                (.cons (.elem "p" ["footnote"] (.cons (.text "f") .nil))
                  (.cons (.elem "p" [] (.cons (.text "b") .nil)) .nil))))
            .nil))) =
      (some "T", some "a b") := by decide

/-! ## `pandas.factorize` and `drop_duplicates` (collaborator boundary)

`data['url'].factorize()` assigns to every position the dense code of its
value, codes being handed out in order of first appearance; the parallel
`uniques` array lists the distinct values in that same order.  Both are
single passes keeping the values already seen, translated below with the
`seen` accumulator made explicit.  `dedupFirst` is `drop_duplicates`
(keep the first occurrence), and `sortByFst` is `sort_values(by=...)` for
the integer first component. -/

/-- The `uniques` result of `factorize`, continued after `seen`. -/
def uniqueFrom (seen : List String) : List String → List String
  | [] => seen
  | k :: ks =>
    if k ∈ seen then uniqueFrom seen ks else uniqueFrom (seen ++ [k]) ks

/-- The codes result of `factorize`, continued after `seen`: a value already
seen gets its index among the seen values, a new value gets the next code. -/
def factorizeFrom (seen : List String) : List String → List Nat
  | [] => []
  | k :: ks =>
    if k ∈ seen then seen.indexOf k :: factorizeFrom seen ks
    else seen.length :: factorizeFrom (seen ++ [k]) ks

/-- `factorize` codes of a key sequence. -/
def factorizeCodes (ks : List String) : List Nat := factorizeFrom [] ks

/-- `factorize` uniques of a key sequence (distinct values, first-seen order). -/
def uniqueKeys (ks : List String) : List String := uniqueFrom [] ks

example : factorizeCodes ["A", "B", "A"] = [0, 1, 0] := by decide
example : uniqueKeys ["A", "B", "A"] = ["A", "B"] := by decide

/-- `drop_duplicates()`: keep the first occurrence of each value. -/
def dedupFirst [DecidableEq α] (seen : List α) : List α → List α
  | [] => []
  | x :: xs =>
    if x ∈ seen then dedupFirst seen xs else x :: dedupFirst (seen ++ [x]) xs

/-- Sorted insertion into a list ordered by the first component. -/
def insertByFst (x : Nat × String) : List (Nat × String) → List (Nat × String)
  | [] => [x]
  | y :: ys => if x.1 ≤ y.1 then x :: y :: ys else y :: insertByFst x ys

/-- `sort_values(by='article_id')`: sort pairs by their integer key. -/
def sortByFst (l : List (Nat × String)) : List (Nat × String) :=
  l.foldr insertByFst []

/-! ## `ArticleFetcher.fetch_article_info` (src/article_fetcher.py:137-191)

A row of the clean dataset is its nullable `url` plus the values of the
remaining columns, in column order.  The enriched row carries the three
columns the method adds: `article_id`, `article_title`, `article_content`.
The scraping collaborator `_get_article_details` enters as a function from
the URL to its (title, content) pair, so that the call trace is the list of
URLs it is applied to. -/

structure CleanRow where
  url : Option String
  rest : List String
deriving DecidableEq, Repr

structure ArticleRow where
  url : String
  rest : List String
  article_id : Nat
  article_title : Option String
  article_content : Option String
deriving DecidableEq, Repr

/-- `data.dropna(subset=['url'])`: the rows with a non-null `url`, in order,
each as its (url, remaining columns) pair. -/
def droppedNa (rows : List CleanRow) : List (String × List String) :=
  rows.filterMap (fun r => r.url.map (fun u => (u, r.rest)))

/-- The non-null `url` column values, in row order. -/
def keptUrls (rows : List CleanRow) : List String := (droppedNa rows).map (·.1)

/-- `data[['article_id','url']].drop_duplicates().sort_values(by='article_id')`:
the distinct (code, url) pairs in first-appearance order, sorted by code. -/
def uniqueArticles (urls : List String) : List (Nat × String) :=
  sortByFst (dedupFirst [] ((factorizeCodes urls).zip urls))

/-- The scrape loop of `fetch_article_info`: one `_get_article_details` call
per entry of `unique_articles`, stored into `id_mappings` keyed by id. -/
def idMappings (details : String → Option String × Option String)
    (urls : List String) : List (Nat × (Option String × Option String)) :=
  (uniqueArticles urls).map (fun iu => (iu.1, details iu.2))

/-- The URLs passed to `_get_article_details`, in call order: the call trace
of the scrape loop. -/
def annotationCalls (rows : List CleanRow) : List String :=
  (uniqueArticles (keptUrls rows)).map (·.2)

/-- The translation of `ArticleFetcher.fetch_article_info` on an in-memory
clean dataset: drop the null-url rows, factorize the url column into
`article_id`, scrape once per unique article, and map the id column through
the title and content maps (`Series.map` of a missing key is null, hence the
`Option.join`). -/
def fetchArticleInfo (details : String → Option String × Option String)
    (rows : List CleanRow) : List ArticleRow :=
  let kept := droppedNa rows
  let ids := factorizeCodes (keptUrls rows)
  let mappings := idMappings details (keptUrls rows)
  let titleMap := mappings.map (fun p => (p.1, p.2.1))
  let contentMap := mappings.map (fun p => (p.1, p.2.2))
  (kept.zip ids).map (fun ri =>
    { url := ri.1.1
      rest := ri.1.2
      article_id := ri.2
      article_title := (titleMap.lookup ri.2).join
      article_content := (contentMap.lookup ri.2).join })

example :
    fetchArticleInfo
      (fun u => (some ("T:" ++ u), some ("C:" ++ u)))
      [⟨some "A", ["r1"]⟩, ⟨some "B", ["r2"]⟩, ⟨some "A", ["r3"]⟩] =
      [⟨"A", ["r1"], 0, some "T:A", some "C:A"⟩,
       ⟨"B", ["r2"], 1, some "T:B", some "C:B"⟩,
       ⟨"A", ["r3"], 0, some "T:A", some "C:A"⟩] := by decide

example :
    annotationCalls [⟨some "A", []⟩, ⟨none, []⟩, ⟨some "B", []⟩, ⟨some "A", []⟩] =
      ["A", "B"] := by decide

/-! ## `llm_executor.py`: schema validation and outcome classification

`PoliticalBiasAssessment` (src/llm_executor.py:28-32) declares the three
required response fields.  The raw response content handed back by
`ollama.chat` is modelled at the JSON-parsing boundary: either a parsed
flat JSON object (field name / value pairs) or text that does not parse as
an object.  `model_validate_json` succeeds exactly on an object carrying a
string `assessment`, an integer `confidence_score` and a string
`explanation`; the Pydantic class states no range constraint on
`confidence_score` and no category constraint on `assessment`. -/

structure PoliticalBiasAssessment where
  assessment : String
  confidence_score : Int
  explanation : String
deriving DecidableEq, Repr

inductive JsonValue where
  | jstr (s : String)
  | jint (n : Int)
  | jnull
deriving DecidableEq, Repr

/-- Rendering of a field value back to response text. -/
def JsonValue.render : JsonValue → String
  | .jstr s => "\"" ++ s ++ "\""
  | .jint n => toString n
  | .jnull => "null"

/-- The raw content string of one `ollama.chat` response, at the JSON
boundary: a parsed flat object, or text that is not a JSON object. -/
inductive RawResponse where
  | jsonObj (fields : List (String × JsonValue))
  | malformed (raw : String)
deriving DecidableEq, Repr

/-- The response text itself (what `response['message']['content']` held). -/
def RawResponse.text : RawResponse → String
  | .jsonObj fields =>
    "\x7b" ++
      String.intercalate ", "
        (fields.map (fun f => "\"" ++ f.1 ++ "\": " ++ f.2.render)) ++ "\x7d"
  | .malformed raw => raw

/-- `PoliticalBiasAssessment.model_validate_json` on the response text:
parse failure or a missing/ill-typed required field raises a
`ValidationError` (the `error` branch); otherwise the three declared fields
are extracted. -/
def modelValidateJson : RawResponse → Except String PoliticalBiasAssessment
  | .malformed raw => .error ("Invalid JSON: " ++ raw)
  | .jsonObj fields =>
    match fields.lookup "assessment", fields.lookup "confidence_score",
        fields.lookup "explanation" with
    | some (.jstr a), some (.jint c), some (.jstr e) => .ok ⟨a, c, e⟩
    | _, _, _ => .error "Field validation error"

/-- What one `ollama.chat` call produced, at the collaborator boundary:
a returned response content, an `ollama.ResponseError`, or any other
exception (connectivity, missing content key, ...). -/
inductive ChatResult where
  | ok (content : RawResponse)
  | responseError (msg : String)
  | otherError (msg : String)

/-- The per-row outcome, one constructor per branch of the
`try`/`except ValidationError`/`except ollama.ResponseError`/`except
Exception` chain of `_process_single_file` (src/llm_executor.py:160-202). -/
inductive Outcome where
  | success (a : String) (c : Int) (e : String)
  | validationFail (rawText : String)
  | upstreamFail (msg : String)
  | generalFail (msg : String)
deriving DecidableEq, Repr

/-- Outcome classification of one call result: the assignment chain of the
`try` body and the three `except` handlers.  On a returned response the
text is stripped and validated; a `ValidationError` records the stripped
raw text (`response_text` is bound before validation runs). -/
def classifyResult : ChatResult → Outcome
  | .ok content =>
    match modelValidateJson content with
    | .ok llm => .success llm.assessment llm.confidence_score llm.explanation
    | .error _ => .validationFail (pyStrip content.text)
  | .responseError e => .upstreamFail e
  | .otherError e => .generalFail e

/-- The `(llm_assessment, llm_confidence, llm_explanation)` column values a
given outcome writes (assessment label, nullable confidence, explanation). -/
def Outcome.fields : Outcome → String × Option Int × String
  | .success a c e => (a, some c, e)
  | .validationFail rawText => ("VALIDATION_FAIL", none, rawText)
  | .upstreamFail e => ("OLLAMA_RESPONSE_FAIL", none, "Ollama response error: " ++ e)
  | .generalFail e => ("INFERENCE_FAIL", none, "General system error: " ++ e)

/-! ## The resumable batch runner (src/llm_executor.py:87-223)

An input row is its `prompt` column plus the values of the other columns in
column order; an output row is those other columns plus the four LLM result
columns (`llm_model` always carries the model name).  The output CSV is the
list of its data rows; `ollama.chat` enters as a function from the prompt
to a `ChatResult`. -/

structure PromptRow where
  prompt : String
  rest : List String
deriving DecidableEq, Repr

structure ResultRow where
  rest : List String
  llm_assessment : String
  llm_confidence : Option Int
  llm_explanation : String
  llm_model : String
deriving DecidableEq, Repr

/-- Processing of one input row: one `ollama.chat` call on the row's
prompt, outcome classification, and assembly of the written row over
`all_columns` (original columns minus `prompt`, plus the LLM columns). -/
def processRow (chat : String → ChatResult) (model : String)
    (row : PromptRow) : ResultRow :=
  let f := (classifyResult (chat row.prompt)).fields
  { rest := row.rest
    llm_assessment := f.1
    llm_confidence := f.2.1
    llm_explanation := f.2.2
    llm_model := model }

/-- `_initialize_output_file`: when the output file does not exist, write
the header and start from 0; when it exists, the processed count is the
number of data rows read over the non-LLM columns (`usecols`), except that
any read failure falls back to 0.  The result is the initial store content
paired with `processed_count`. -/
def initializeOutputFile (existing : Option (List ResultRow))
    (readFails : Bool) : List ResultRow × Nat :=
  match existing with
  | none => ([], 0)
  | some rows => (rows, if readFails then 0 else (rows.map (·.rest)).length)

/-- `_process_single_file` after its input has been loaded: initialize or
read the output file, skip the first `processed_count` input rows
(`df.iloc[processed_count:]`), and append one result row per remaining
input row, in input order. -/
def processSingleFile (chat : String → ChatResult) (model : String)
    (inputRows : List PromptRow) (existing : Option (List ResultRow))
    (readFails : Bool) : List ResultRow :=
  let init := initializeOutputFile existing readFails
  init.1 ++ (inputRows.drop init.2).map (processRow chat model)

example :
    processSingleFile (fun _ => .responseError "boom") "llama3"
      [⟨"p1", ["a"]⟩] none false =
      [⟨["a"], "OLLAMA_RESPONSE_FAIL", none, "Ollama response error: boom", "llama3"⟩] := by
  decide

example :
    classifyResult (.ok (.jsonObj
      [("assessment", .jstr "is-biased"), ("confidence_score", .jint 87),
       ("explanation", .jstr "r")])) = .success "is-biased" 87 "r" := by decide

/-! ## `main` of `llm_executor.py` (src/llm_executor.py:226-274)

`argparse` is modelled at the boundary: the parser defines `--file-type`,
`--model` and `--output-dir`, so the namespace it returns carries exactly
those attributes; any other attribute access raises `AttributeError`.  The
job loop joins `Constants.DEFAULT_PROMPT_DIR`, `args.version` and each file
name, skips the path when the file does not exist, and otherwise processes
it; an uncaught exception aborts the whole loop, which `Except.error`
models. -/

structure CliArgs where
  fileType : String
  model : String
  outputDir : String
  version : Option String

/-- The namespace `parser.parse_args()` returns in `main`: the three
declared options hold their values and `version` is absent, since `main`'s
parser never adds a `--version` argument. -/
def parsedArgs (fileType model outputDir : String) : CliArgs :=
  { fileType := fileType, model := model, outputDir := outputDir, version := none }

/-- `args.version`: attribute access on the namespace; an absent attribute
raises `AttributeError`. -/
def attrVersion (args : CliArgs) : Except String String :=
  match args.version with
  | some v => .ok v
  | none => .error "AttributeError: Namespace object has no attribute version"

/-- `Constants.DEFAULT_PROMPT_DIR` (src/constants.py:9). -/
def DEFAULT_PROMPT_DIR : String := "../data/prompts/"

/-- The job loop of `main`: for each selected file name, build
`os.path.join(Constants.DEFAULT_PROMPT_DIR, args.version, file_name)`,
skip missing files, process existing ones.  The returned list is the list
of processed paths; an uncaught exception aborts the loop. -/
def mainJobLoop (args : CliArgs) (fileExistsAt : String → Bool)
    (filesToRun : List String) : Except String (List String) :=
  filesToRun.foldlM
    (fun acc fileName => do
      let v ← attrVersion args
      let path := DEFAULT_PROMPT_DIR ++ v ++ "/" ++ fileName
      if fileExistsAt path then pure (acc ++ [path]) else pure acc)
    []

/-! ## Properties of the deduplication machinery -/

theorem uniqueFrom_append_right (ks : List String) :
    ∀ seen : List String, ∃ t, uniqueFrom seen ks = seen ++ t := by
  induction ks with
  | nil => intro seen; exact ⟨[], by simp [uniqueFrom]⟩
  | cons k ks ih =>
    intro seen
    by_cases hk : k ∈ seen
    · obtain ⟨t, ht⟩ := ih seen
      exact ⟨t, by simp [uniqueFrom, hk, ht]⟩
    · obtain ⟨t, ht⟩ := ih (seen ++ [k])
      exact ⟨[k] ++ t, by simp [uniqueFrom, hk, ht]⟩

theorem uniqueFrom_nodup (ks : List String) :
    ∀ seen : List String, seen.Nodup → (uniqueFrom seen ks).Nodup := by
  induction ks with
  | nil => intro seen h; simpa [uniqueFrom] using h
  | cons k ks ih =>
    intro seen h
    by_cases hk : k ∈ seen
    · simpa [uniqueFrom, hk] using ih seen h
    · have h2 : (seen ++ [k]).Nodup := by
        simp [List.nodup_append, h, hk]
      simpa [uniqueFrom, hk] using ih _ h2

theorem mem_uniqueFrom (ks : List String) :
    ∀ (seen : List String) (x : String),
      x ∈ uniqueFrom seen ks ↔ x ∈ seen ∨ x ∈ ks := by
  induction ks with
  | nil => intro seen x; simp [uniqueFrom]
  | cons k ks ih =>
    intro seen x
    by_cases hk : k ∈ seen
    · rw [show uniqueFrom seen (k :: ks) = uniqueFrom seen ks from by
        simp [uniqueFrom, hk]]
      rw [ih]
      simp only [List.mem_cons]
      constructor
      · rintro (h | h)
        · exact Or.inl h
        · exact Or.inr (Or.inr h)
      · rintro (h | rfl | h)
        · exact Or.inl h
        · exact Or.inl hk
        · exact Or.inr h
    · rw [show uniqueFrom seen (k :: ks) = uniqueFrom (seen ++ [k]) ks from by
        simp [uniqueFrom, hk]]
      rw [ih]
      simp only [List.mem_append, List.mem_singleton, List.mem_cons]
      tauto

theorem uniqueFrom_eq_append_dedupFirst (ks : List String) :
    ∀ seen : List String, uniqueFrom seen ks = seen ++ dedupFirst seen ks := by
  induction ks with
  | nil => intro seen; simp [uniqueFrom, dedupFirst]
  | cons k ks ih =>
    intro seen
    by_cases hk : k ∈ seen
    · simp [uniqueFrom, dedupFirst, hk, ih seen]
    · simp [uniqueFrom, dedupFirst, hk, ih (seen ++ [k])]

theorem factorizeFrom_eq_map (ks : List String) :
    ∀ seen : List String, seen.Nodup →
      factorizeFrom seen ks =
        ks.map (fun k => (uniqueFrom seen ks).indexOf k) := by
  induction ks with
  | nil => intro seen _; simp [factorizeFrom]
  | cons k ks ih =>
    intro seen hseen
    by_cases hk : k ∈ seen
    · obtain ⟨t, ht⟩ := uniqueFrom_append_right ks seen
      have hu : uniqueFrom seen (k :: ks) = uniqueFrom seen ks := by
        simp [uniqueFrom, hk]
      rw [show factorizeFrom seen (k :: ks) =
          seen.indexOf k :: factorizeFrom seen ks from by simp [factorizeFrom, hk],
        hu, List.map_cons, ih seen hseen, ht, List.indexOf_append_of_mem hk]
    · have hnodup2 : (seen ++ [k]).Nodup := by
        simp [List.nodup_append, hseen, hk]
      obtain ⟨t, ht⟩ := uniqueFrom_append_right ks (seen ++ [k])
      have hu : uniqueFrom seen (k :: ks) = uniqueFrom (seen ++ [k]) ks := by
        simp [uniqueFrom, hk]
      have hidx : (uniqueFrom (seen ++ [k]) ks).indexOf k = seen.length := by
        rw [ht, List.indexOf_append_of_mem (by simp),
          List.indexOf_append_of_not_mem hk]
        simp [List.indexOf_cons_self]
      rw [show factorizeFrom seen (k :: ks) =
          seen.length :: factorizeFrom (seen ++ [k]) ks from by simp [factorizeFrom, hk],
        hu, List.map_cons, ih _ hnodup2, hidx]

theorem factorizeCodes_eq_map (ks : List String) :
    factorizeCodes ks = ks.map (fun k => (uniqueKeys ks).indexOf k) :=
  factorizeFrom_eq_map ks [] List.nodup_nil

theorem uniqueKeys_nodup (ks : List String) : (uniqueKeys ks).Nodup :=
  uniqueFrom_nodup ks [] List.nodup_nil

theorem mem_uniqueKeys (ks : List String) (x : String) :
    x ∈ uniqueKeys ks ↔ x ∈ ks := by
  rw [uniqueKeys, mem_uniqueFrom]
  simp

theorem dedupFirst_nil_eq_uniqueKeys (ks : List String) :
    dedupFirst [] ks = uniqueKeys ks := by
  have := uniqueFrom_eq_append_dedupFirst ks []
  simpa [uniqueKeys] using this.symm

theorem dedupFirst_map {α β : Type} [DecidableEq α] [DecidableEq β]
    (g : α → β) (hg : Function.Injective g) (ks : List α) :
    ∀ seen : List α,
      dedupFirst (seen.map g) (ks.map g) = (dedupFirst seen ks).map g := by
  induction ks with
  | nil => intro seen; simp [dedupFirst]
  | cons k ks ih =>
    intro seen
    by_cases hk : k ∈ seen
    · have hmem : g k ∈ seen.map g := List.mem_map_of_mem g hk
      simp [dedupFirst, hk, hmem, ih seen]
    · have hmem : g k ∉ seen.map g := by
        intro hm
        obtain ⟨a, ha, hga⟩ := List.mem_map.mp hm
        exact hk (hg hga ▸ ha)
      have step := ih (seen ++ [k])
      simp only [List.map_append, List.map_cons, List.map_nil] at step
      simp [dedupFirst, hk, hmem, step]

theorem sortByFst_of_pairwise :
    ∀ l : List (Nat × String), l.Pairwise (fun a b => a.1 ≤ b.1) → sortByFst l = l := by
  intro l
  induction l with
  | nil => intro _; rfl
  | cons x xs ih =>
    intro h
    have hx := (List.pairwise_cons.mp h).1
    have hxs := (List.pairwise_cons.mp h).2
    have hstep : sortByFst (x :: xs) = insertByFst x (sortByFst xs) := rfl
    rw [hstep, ih hxs]
    cases xs with
    | nil => rfl
    | cons y ys => simp [insertByFst, hx y (by simp)]

theorem enum_pairwise_fst (l : List String) :
    l.enum.Pairwise (fun a b => a.1 ≤ b.1) := by
  rw [List.pairwise_iff_getElem]
  intro i j hi hj hij
  simp only [List.getElem_enum]
  omega

theorem map_indexOf_eq_enum {l : List String} (hnd : l.Nodup) :
    l.map (fun k => (l.indexOf k, k)) = l.enum := by
  apply List.ext_getElem
  · simp
  · intro i h1 h2
    have hi : i < l.length := by simpa using h1
    simp only [List.getElem_map, List.getElem_enum]
    exact Prod.ext (List.indexOf_getElem hnd i hi) rfl

/-- The composite `drop_duplicates().sort_values(by='article_id')` of the
(code, url) pairs collapses to the enumeration of the distinct urls in
first-appearance order. -/
theorem uniqueArticles_eq_enum (urls : List String) :
    uniqueArticles urls = (uniqueKeys urls).enum := by
  have hinj : Function.Injective (fun k => ((uniqueKeys urls).indexOf k, k)) := by
    intro a b hab
    exact congrArg Prod.snd hab
  have hzip : (factorizeCodes urls).zip urls =
      urls.map (fun k => ((uniqueKeys urls).indexOf k, k)) := by
    rw [factorizeCodes_eq_map]
    have := List.zip_map' (fun k => (uniqueKeys urls).indexOf k) id urls
    simpa using this
  have hdedup : dedupFirst [] ((factorizeCodes urls).zip urls) =
      (uniqueKeys urls).enum := by
    rw [hzip]
    have := dedupFirst_map (fun k => ((uniqueKeys urls).indexOf k, k)) hinj urls []
    simp only [List.map_nil] at this
    rw [this, dedupFirst_nil_eq_uniqueKeys,
      map_indexOf_eq_enum (uniqueKeys_nodup urls)]
  rw [uniqueArticles, hdedup, sortByFst_of_pairwise _ (enum_pairwise_fst _)]

theorem lookup_map_enumFrom {γ : Type} (g : String → γ) :
    ∀ (l : List String) (n k : Nat) (hk : k < l.length),
      ((List.enumFrom n l).map (fun p => (p.1, g p.2))).lookup (n + k) =
        some (g (l.get ⟨k, hk⟩)) := by
  intro l
  induction l with
  | nil => intro n k hk; simp at hk
  | cons b t ih =>
    intro n k hk
    cases k with
    | zero => simp [List.enumFrom, List.lookup]
    | succ k2 =>
      have harith : n + (k2 + 1) = (n + 1) + k2 := by omega
      have hne : ((n + 1) + k2 == n) = false := by
        simp only [beq_eq_false_iff_ne, ne_eq]
        omega
      have hk2 : k2 < t.length := by simpa using Nat.lt_of_succ_lt_succ hk
      rw [harith]
      simp only [List.enumFrom, List.map_cons, List.lookup, hne]
      exact ih (n + 1) k2 hk2

theorem lookup_map_enum {γ : Type} (g : String → γ) (l : List String)
    (k : Nat) (hk : k < l.length) :
    (l.enum.map (fun p => (p.1, g p.2))).lookup k = some (g (l.get ⟨k, hk⟩)) := by
  have := lookup_map_enumFrom g l 0 k hk
  simpa [List.enum] using this

/-! ## Claim theorems for the fetch/annotate engine -/

/-- Claim C3: for every row sequence the scrape loop calls
`_get_article_details` once per distinct non-null url, in identity order:
the call trace equals the distinct urls in first-appearance order, its
length is the number of distinct non-null url values, and the ids walked by
the loop are exactly 0, 1, 2, ... in that order — independent of how many
rows reference each url. -/
theorem at_most_once_annotation (rows : List CleanRow) :
    annotationCalls rows = uniqueKeys (keptUrls rows) ∧
    (annotationCalls rows).Nodup ∧
    (annotationCalls rows).length = (keptUrls rows).toFinset.card ∧
    (uniqueArticles (keptUrls rows)).map (fun iu => iu.1) =
      List.range (annotationCalls rows).length := by
  have hcalls : annotationCalls rows = uniqueKeys (keptUrls rows) := by
    rw [annotationCalls, uniqueArticles_eq_enum]
    exact List.enum_map_snd _
  have hfin : (keptUrls rows).toFinset = (uniqueKeys (keptUrls rows)).toFinset := by
    apply Finset.ext
    intro x
    simp [List.mem_toFinset, mem_uniqueKeys]
  refine ⟨hcalls, ?_, ?_, ?_⟩
  · rw [hcalls]; exact uniqueKeys_nodup _
  · rw [hcalls, hfin, List.toFinset_card_of_nodup (uniqueKeys_nodup _)]
  · rw [hcalls, uniqueArticles_eq_enum]
    have := List.enum_map_fst (uniqueKeys (keptUrls rows))
    simp only [List.toFinset_card_of_nodup (uniqueKeys_nodup _), hfin] at this ⊢
    exact this

/-- Claim C4: identity assignment over the rows with a non-null url
produces one dense code per kept row — rows with equal urls get equal
identities and rows with unequal urls get distinct identities, every
identity is below the number of distinct urls and every such value is hit,
the distinct (identity, url) pairs in first-appearance order are
(0, k₀), (1, k₁), ... — and null-url rows are excluded entirely (one code
per element of the null-dropped working set only).  Keys A, B, A get codes
0, 1, 0. -/
theorem key_deduplication (rows : List CleanRow) :
    (factorizeCodes (keptUrls rows)).length = (keptUrls rows).length ∧
    (∀ p ∈ (keptUrls rows).zip (factorizeCodes (keptUrls rows)),
      ∀ q ∈ (keptUrls rows).zip (factorizeCodes (keptUrls rows)),
        (p.1 = q.1 ↔ p.2 = q.2)) ∧
    (∀ p ∈ (keptUrls rows).zip (factorizeCodes (keptUrls rows)),
      p.2 < (keptUrls rows).toFinset.card) ∧
    (∀ v < (keptUrls rows).toFinset.card,
      ∃ p ∈ (keptUrls rows).zip (factorizeCodes (keptUrls rows)), p.2 = v) ∧
    dedupFirst [] ((factorizeCodes (keptUrls rows)).zip (keptUrls rows)) =
      (uniqueKeys (keptUrls rows)).enum ∧
    factorizeCodes ["A", "B", "A"] = [0, 1, 0] := by
  set ks := keptUrls rows with hks
  set U := uniqueKeys ks with hU
  have hnd : U.Nodup := uniqueKeys_nodup ks
  have hcard : ks.toFinset.card = U.length := by
    have hfin : ks.toFinset = U.toFinset := by
      apply Finset.ext
      intro x
      simp [List.mem_toFinset, hU, mem_uniqueKeys]
    rw [hfin, List.toFinset_card_of_nodup hnd]
  have hzip : ks.zip (factorizeCodes ks) =
      ks.map (fun k => (k, U.indexOf k)) := by
    rw [factorizeCodes_eq_map]
    have := List.zip_map' (id : String → String) (fun k => (uniqueKeys ks).indexOf k) ks
    simpa [hU] using this
  have hmemzip : ∀ p ∈ ks.zip (factorizeCodes ks),
      p.1 ∈ ks ∧ p.2 = U.indexOf p.1 := by
    intro p hp
    rw [hzip] at hp
    obtain ⟨k, hk, hpk⟩ := List.mem_map.mp hp
    subst hpk
    exact ⟨hk, rfl⟩
  refine ⟨?_, ?_, ?_, ?_, ?_, by decide⟩
  · rw [factorizeCodes_eq_map, List.length_map]
  · intro p hp q hq
    obtain ⟨hp1, hp2⟩ := hmemzip p hp
    obtain ⟨hq1, hq2⟩ := hmemzip q hq
    rw [hp2, hq2]
    constructor
    · intro h
      rw [h]
    · intro h
      have hpU : p.1 ∈ U := (mem_uniqueKeys ks p.1).mpr hp1
      have hqU : q.1 ∈ U := (mem_uniqueKeys ks q.1).mpr hq1
      exact (List.indexOf_inj hpU hqU).mp h
  · intro p hp
    obtain ⟨hp1, hp2⟩ := hmemzip p hp
    rw [hp2, hcard]
    exact List.indexOf_lt_length.mpr ((mem_uniqueKeys ks p.1).mpr hp1)
  · intro v hv
    rw [hcard] at hv
    have hmem : U.get ⟨v, hv⟩ ∈ ks := (mem_uniqueKeys ks _).mp (U.get_mem _ _)
    refine ⟨(U.get ⟨v, hv⟩, U.indexOf (U.get ⟨v, hv⟩)), ?_, ?_⟩
    · rw [hzip]
      exact List.mem_map_of_mem _ hmem
    · have := List.indexOf_getElem hnd v hv
      simpa using this
  · have hinj : Function.Injective (fun k => (U.indexOf k, k)) := by
      intro a b hab
      exact congrArg Prod.snd hab
    have hzip2 : (factorizeCodes ks).zip ks =
        ks.map (fun k => (U.indexOf k, k)) := by
      rw [factorizeCodes_eq_map]
      have := List.zip_map' (fun k => (uniqueKeys ks).indexOf k) id ks
      simpa [hU] using this
    rw [hzip2]
    have := dedupFirst_map (fun k => (U.indexOf k, k)) hinj ks []
    simp only [List.map_nil] at this
    rw [this, dedupFirst_nil_eq_uniqueKeys, ← hU, map_indexOf_eq_enum hnd]

/-- Claim C1 (counterexample): a row whose url is null is not kept in the
output of `fetch_article_info` with absent title/body — it is dropped, so
the output length differs from the input length. -/
theorem fetch_article_info_null_row_cex :
    fetchArticleInfo (fun _ => (some "T", some "B")) [⟨none, ["x"]⟩] = [] ∧
    ¬ (fetchArticleInfo (fun _ => (some "T", some "B")) [⟨none, ["x"]⟩]).length =
        ([⟨none, ["x"]⟩] : List CleanRow).length := by
  constructor
  · decide
  · decide

/-- Claim C1 (amended): the merge-back output of `fetch_article_info` is
exactly the null-dropped row subsequence, in input order: each row with a
non-null url becomes one output row carrying its url, its remaining
columns, the identity of its url, and the title and body obtained from its
url's single annotation result; rows with a null url are dropped from the
output entirely. -/
theorem fetch_article_info_merge_amended
    (details : String → Option String × Option String) (rows : List CleanRow) :
    fetchArticleInfo details rows =
      (droppedNa rows).map (fun kr =>
        { url := kr.1
          rest := kr.2
          article_id := (uniqueKeys (keptUrls rows)).indexOf kr.1
          article_title := (details kr.1).1
          article_content := (details kr.1).2 : ArticleRow }) := by
  set U := uniqueKeys (keptUrls rows) with hU
  have hids : factorizeCodes (keptUrls rows) =
      (droppedNa rows).map (fun r => U.indexOf r.1) := by
    rw [factorizeCodes_eq_map]
    rw [show keptUrls rows = (droppedNa rows).map (fun r => r.1) from rfl]
    rw [List.map_map]
    rfl
  have hzip : (droppedNa rows).zip (factorizeCodes (keptUrls rows)) =
      (droppedNa rows).map (fun r => (r, U.indexOf r.1)) := by
    rw [hids]
    have := List.zip_map' (id : String × List String → String × List String)
      (fun r : String × List String => U.indexOf r.1) (droppedNa rows)
    simpa using this
  have hmaps : idMappings details (keptUrls rows) =
      U.enum.map (fun iu => (iu.1, details iu.2)) := by
    rw [idMappings, uniqueArticles_eq_enum]
  rw [fetchArticleInfo]
  rw [show keptUrls rows = (droppedNa rows).map (fun r => r.1) from rfl] at hzip ⊢
  rw [← show keptUrls rows = (droppedNa rows).map (fun r => r.1) from rfl] at hzip ⊢
  rw [hzip, List.map_map]
  apply List.map_congr_left
  intro r hr
  have hmem : r.1 ∈ U := by
    rw [hU, mem_uniqueKeys]
    exact List.mem_map_of_mem (fun r => r.1) hr
  have hlt : U.indexOf r.1 < U.length := List.indexOf_lt_length.mpr hmem
  have hgetU : U.get ⟨U.indexOf r.1, hlt⟩ = r.1 := List.indexOf_get hlt
  have htitle :
      ((idMappings details (keptUrls rows)).map (fun p => (p.1, p.2.1))).lookup
          (U.indexOf r.1) = some (details r.1).1 := by
    rw [hmaps, List.map_map]
    have := lookup_map_enum (fun u => (details u).1) U (U.indexOf r.1) hlt
    rw [hgetU] at this
    exact this
  have hcontent :
      ((idMappings details (keptUrls rows)).map (fun p => (p.1, p.2.2))).lookup
          (U.indexOf r.1) = some (details r.1).2 := by
    rw [hmaps, List.map_map]
    have := lookup_map_enum (fun u => (details u).2) U (U.indexOf r.1) hlt
    rw [hgetU] at this
    exact this
  simp only [Function.comp, htitle, hcontent]
  rfl

/-- Claim C7: `_get_article_details` returns the absent/absent pair exactly
on timeout, transport-level error, or non-200 response status; any 200
response — whatever its document, including one with no heading, no
paragraphs or no article container — yields present (sentinel-bearing)
title and body values, and the function is total (the except handlers turn
every fault into a return value). -/
theorem annotator_failure_classification (r : FetchOutcome) :
    (getArticleDetails r = (none, none) ↔
      (r = .timeout ∨ (∃ m, r = .transportError m) ∨
        ∃ s d, r = .response s d ∧ s ≠ 200)) ∧
    (∀ s d, s = 200 → ∃ t b, getArticleDetails (.response s d) = (some t, some b)) := by
  constructor
  · cases r with
    | timeout => simp [getArticleDetails]
    | transportError m => simp [getArticleDetails]
    | response s d =>
      by_cases hs : s = 200
      · subst hs
        constructor
        · intro h
          rw [show getArticleDetails (.response 200 d) =
              (some (match (HtmlList.removeClasses EXCLUSION_CLASSES d).findTag "h1" with
                     | some t => pyStrip t.allText
                     | none => "No Title Found"), _) from rfl] at h
          exact absurd (congrArg Prod.fst h) (by simp)
        · rintro (h | ⟨m, h⟩ | ⟨s2, d2, h, hs2⟩)
          · exact absurd h (by simp)
          · exact absurd h (by simp)
          · cases h
            exact absurd rfl hs2
      · constructor
        · intro _
          exact Or.inr (Or.inr ⟨s, d, rfl, hs⟩)
        · intro _
          simp [getArticleDetails, hs]
  · intro s d hs
    subst hs
    exact ⟨_, _, rfl⟩

theorem annotator_failure_classification_witness :
    ∃ t b, getArticleDetails (.response 200 .nil) = (some t, some b) :=
  (annotator_failure_classification .timeout).2 200 .nil rfl

/-- The body text described by the specification sentence, stated from its
words for comparison with the implementation: primary tier — every
paragraph inside the main article container, minus footnote-tagged ones, in
document order, joined with a single space; fallback tier, used only when
no article container exists — the first 10 paragraphs found anywhere in
the document with the same footnote exclusion; the fixed sentinel when the
collected paragraph list is empty under both tiers. -/
def claimedBody (doc : HtmlList) : String :=
  let soup := HtmlList.removeClasses EXCLUSION_CLASSES doc
  match soup.findTag "article" with
  | some container =>
    let ps := (container.childrenOf.findAllTag "p").filter
      (fun p => ¬ p.classesOf.contains "footnote")
    if ps.isEmpty then "No Content Found"
    else String.intercalate " " (ps.map (fun p => pyStrip p.allText))
  | none =>
    let ps := ((soup.findAllTag "p").take 10).filter
      (fun p => ¬ p.classesOf.contains "footnote")
    if ps.isEmpty then "No Content Found"
    else String.intercalate " " (ps.map (fun p => pyStrip p.allText))

/-- Claim C8: on every successfully fetched document the body produced by
`_get_article_details` is exactly the claimed two-tier extraction — article
container paragraphs with footnote exclusion joined by single spaces,
falling back to the first 10 document paragraphs only when no article
container exists, with the fixed sentinel for an empty collection. -/
theorem body_extraction_algorithm (s : Nat) (doc : HtmlList) (hs : s = 200) :
    (getArticleDetails (.response s doc)).2 = some (claimedBody doc) := by
  subst hs
  show some _ = some (claimedBody doc)
  rw [claimedBody]
  cases harticle :
      (HtmlList.removeClasses EXCLUSION_CLASSES doc).findTag "article" with
  | none =>
    simp only [harticle]
    cases hps : ((HtmlList.removeClasses EXCLUSION_CLASSES doc).findAllTag "p").take 10
        |>.filter (fun p => ¬ p.classesOf.contains "footnote") with
    | nil =>
      simp only [hps, List.isEmpty_nil, if_true, List.map_nil]
      decide
    | cons p ps => simp [hps]
  | some container =>
    simp only [harticle]
    cases hps : (container.childrenOf.findAllTag "p").filter
        (fun p => ¬ p.classesOf.contains "footnote") with
    | nil =>
      simp only [hps, List.isEmpty_nil, if_true, List.map_nil]
      decide
    | cons p ps => simp [hps]

theorem body_extraction_algorithm_witness :
    (getArticleDetails (.response 200 .nil)).2 = some (claimedBody .nil) :=
  body_extraction_algorithm 200 .nil rfl

/-! ## Claim theorems for the resumable batch runner -/

/-- Claim C2: with an output store holding the M rows a prior run wrote
over the same ordered input (and a readable store), `_process_single_file`
resumes at position M — the count of the store's data rows over the
non-outcome columns — appends exactly the results of rows M..N-1 in input
order, and ends with a store row-for-row identical to one uninterrupted
run over all N rows. -/
theorem resume_correctness (chat : String → ChatResult) (model : String)
    (inputRows : List PromptRow) (M : Nat) (hM : M ≤ inputRows.length) :
    (initializeOutputFile
        (some ((inputRows.take M).map (processRow chat model))) false).2 = M ∧
    processSingleFile chat model inputRows
        (some ((inputRows.take M).map (processRow chat model))) false =
      (inputRows.take M).map (processRow chat model) ++
        (inputRows.drop M).map (processRow chat model) ∧
    processSingleFile chat model inputRows
        (some ((inputRows.take M).map (processRow chat model))) false =
      processSingleFile chat model inputRows none false := by
  have hcount : (initializeOutputFile
      (some ((inputRows.take M).map (processRow chat model))) false).2 = M := by
    simp [initializeOutputFile, Nat.min_eq_left hM]
  refine ⟨hcount, ?_, ?_⟩
  · rw [processSingleFile, hcount]
    simp [initializeOutputFile]
  · rw [processSingleFile, hcount, processSingleFile]
    simp only [initializeOutputFile, List.drop_zero, List.nil_append]
    rw [← List.map_append, List.take_append_drop]

theorem resume_correctness_witness :
    1 ≤ ([⟨"p1", ["a"]⟩, ⟨"p2", ["b"]⟩] : List PromptRow).length ∧
    processSingleFile (fun _ => .otherError "down") "llama3"
        [⟨"p1", ["a"]⟩, ⟨"p2", ["b"]⟩]
        (some (([⟨"p1", ["a"]⟩, ⟨"p2", ["b"]⟩] : List PromptRow).take 1
          |>.map (processRow (fun _ => .otherError "down") "llama3"))) false =
      processSingleFile (fun _ => .otherError "down") "llama3"
        [⟨"p1", ["a"]⟩, ⟨"p2", ["b"]⟩] none false :=
  ⟨by decide,
    (resume_correctness (fun _ => .otherError "down") "llama3"
      [⟨"p1", ["a"]⟩, ⟨"p2", ["b"]⟩] 1 (by decide)).2.2⟩

/-- Claim C6: every input row of a fresh run yields exactly one appended
output row; each row's outcome is exactly one of the four taxonomy labels
(success, schema-validation failure, upstream error, general failure — the
except chain leaves no other path), and the confidence column is null for
every non-success outcome. -/
theorem outcome_totality (chat : String → ChatResult) (model : String)
    (inputRows : List PromptRow) :
    (processSingleFile chat model inputRows none false).length = inputRows.length ∧
    processSingleFile chat model inputRows none false =
      inputRows.map (processRow chat model) ∧
    (∀ res : ChatResult,
      (∃ a c e, classifyResult res = .success a c e) ∨
      (∃ rw2, classifyResult res = .validationFail rw2) ∨
      (∃ m, classifyResult res = .upstreamFail m) ∨
      (∃ m, classifyResult res = .generalFail m)) ∧
    (∀ o : Outcome, (∀ a c e, o ≠ .success a c e) → o.fields.2.1 = none) := by
  refine ⟨?_, ?_, ?_, ?_⟩
  · simp [processSingleFile, initializeOutputFile]
  · simp [processSingleFile, initializeOutputFile]
  · intro res
    cases hres : classifyResult res with
    | success a c e => exact Or.inl ⟨a, c, e, rfl⟩
    | validationFail rw2 => exact Or.inr (Or.inl ⟨rw2, rfl⟩)
    | upstreamFail m => exact Or.inr (Or.inr (Or.inl ⟨m, rfl⟩))
    | generalFail m => exact Or.inr (Or.inr (Or.inr ⟨m, rfl⟩))
  · intro o ho
    cases o with
    | success a c e => exact absurd rfl (ho a c e)
    | validationFail rw2 => rfl
    | upstreamFail m => rfl
    | generalFail m => rfl

theorem outcome_totality_witness :
    (processSingleFile (fun _ => .responseError "e") "m" [⟨"p", []⟩] none false).length = 1 ∧
    (Outcome.validationFail "bad").fields.2.1 = none :=
  ⟨(outcome_totality (fun _ => .responseError "e") "m" [⟨"p", []⟩]).1,
    (outcome_totality (fun _ => .responseError "e") "m" [⟨"p", []⟩]).2.2.2
      (Outcome.validationFail "bad") (fun _ _ _ h => Outcome.noConfusion h)⟩

/-- Claim C10: when the output file exists but reading it fails, the
resume count falls back to 0, the run reprocesses every input row and
appends all results after the existing content without truncation, so a
non-empty pre-existing store ends with strictly more data rows than the
input has rows (the previously written rows are duplicated). -/
theorem resume_fallback_duplication (chat : String → ChatResult) (model : String)
    (inputRows : List PromptRow) (existingRows : List ResultRow) :
    (initializeOutputFile (some existingRows) true).2 = 0 ∧
    processSingleFile chat model inputRows (some existingRows) true =
      existingRows ++ inputRows.map (processRow chat model) ∧
    (0 < existingRows.length →
      inputRows.length <
        (processSingleFile chat model inputRows (some existingRows) true).length) := by
  refine ⟨rfl, ?_, ?_⟩
  · rw [processSingleFile]
    simp [initializeOutputFile]
  · intro hpos
    rw [processSingleFile]
    simp [initializeOutputFile]
    omega

theorem resume_fallback_duplication_witness :
    (initializeOutputFile
        (some [(⟨[], "A", none, "E", "m"⟩ : ResultRow)]) true).2 = 0 ∧
    0 < ([(⟨[], "A", none, "E", "m"⟩ : ResultRow)]).length ∧
    ([] : List PromptRow).length <
      (processSingleFile (fun _ => .otherError "x") "m" []
        (some [(⟨[], "A", none, "E", "m"⟩ : ResultRow)]) true).length :=
  ⟨(resume_fallback_duplication (fun _ => .otherError "x") "m" []
      [(⟨[], "A", none, "E", "m"⟩ : ResultRow)]).1,
    by decide,
    (resume_fallback_duplication (fun _ => .otherError "x") "m" []
      [(⟨[], "A", none, "E", "m"⟩ : ResultRow)]).2.2 (by decide)⟩

/-- Claim C5 (counterexample): the validated schema does not bound the
confidence: a response whose `confidence_score` is 500 — outside [1,100] —
passes validation and is recorded as a success outcome carrying confidence
500, not as a schema-validation failure with null confidence. -/
theorem schema_validation_range_cex :
    classifyResult (.ok (.jsonObj
        [("assessment", .jstr "maybe-biased"), ("confidence_score", .jint 500),
         ("explanation", .jstr "because")])) =
      .success "maybe-biased" 500 "because" ∧
    ¬ ((1 : Int) ≤ 500 ∧ (500 : Int) ≤ 100) := by
  constructor
  · decide
  · decide

/-- Claim C5 (amended): the response is validated against the three
required fields of `PoliticalBiasAssessment` — a string assessment, an
integer confidence with no range restriction, and a string explanation;
validation succeeds exactly when the response is a JSON object carrying all
three with those types; on success the three fields are extracted into the
success outcome, and on any validation failure the outcome is the
schema-validation-failure label whose explanation holds the (stripped) raw
response text; non-object response text always fails validation. -/
theorem schema_validation_amended :
    (∀ (fields : List (String × JsonValue)) (a : String) (c : Int) (e : String),
      modelValidateJson (.jsonObj fields) = .ok ⟨a, c, e⟩ ↔
        (fields.lookup "assessment" = some (.jstr a) ∧
         fields.lookup "confidence_score" = some (.jint c) ∧
         fields.lookup "explanation" = some (.jstr e))) ∧
    (∀ content : RawResponse, ∀ llm : PoliticalBiasAssessment,
      modelValidateJson content = .ok llm →
        classifyResult (.ok content) =
          .success llm.assessment llm.confidence_score llm.explanation) ∧
    (∀ (content : RawResponse) (err : String),
      modelValidateJson content = .error err →
        classifyResult (.ok content) = .validationFail (pyStrip content.text)) ∧
    (∀ raw : String, ∃ err, modelValidateJson (.malformed raw) = .error err) := by
  refine ⟨?_, ?_, ?_, ?_⟩
  · intro fields a c e
    constructor
    · intro h
      rw [modelValidateJson] at h
      split at h
      · simp only [Except.ok.injEq, PoliticalBiasAssessment.mk.injEq] at h
        obtain ⟨h1, h2, h3⟩ := h
        subst h1
        subst h2
        subst h3
        refine ⟨?_, ?_, ?_⟩ <;> assumption
      · exact absurd h (by simp)
    · rintro ⟨h1, h2, h3⟩
      rw [modelValidateJson, h1, h2, h3]
  · intro content llm h
    rw [classifyResult, h]
  · intro content err h
    rw [classifyResult, h]
  · intro raw
    exact ⟨_, rfl⟩

theorem schema_validation_amended_witness :
    classifyResult (.ok (.malformed "not json")) =
      .validationFail (pyStrip (RawResponse.text (.malformed "not json"))) :=
  (schema_validation_amended).2.2.1 (.malformed "not json")
    ("Invalid JSON: " ++ "not json") rfl

/-- Claim C9 (code bug): `main` of `llm_executor.py` builds every job path
with `args.version`, but its argument parser defines no `--version`
argument, so the very first loop iteration raises `AttributeError` and the
whole run aborts — no job is skipped-and-continued, and no sibling job is
processed, even when every input file exists. -/
theorem main_version_attribute_error :
    mainJobLoop (parsedArgs "all" "llama3" "../results/") (fun _ => true)
        ["prompt_article_info.csv", "prompt_politics_variants.csv"] =
      .error "AttributeError: Namespace object has no attribute version" ∧
    mainJobLoop (parsedArgs "all" "llama3" "../results/") (fun _ => false)
        ["prompt_article_info.csv", "prompt_politics_variants.csv"] =
      .error "AttributeError: Namespace object has no attribute version" := by
  exact ⟨rfl, rfl⟩

theorem key_deduplication_witness :
    (0 : Nat) <
      (keptUrls [⟨some "A", []⟩, ⟨some "B", []⟩, ⟨some "A", []⟩]).toFinset.card :=
  (key_deduplication [⟨some "A", []⟩, ⟨some "B", []⟩, ⟨some "A", []⟩]).2.2.1
    ("A", 0) (by decide)
